import Mathlib

/-!
Verification of the noos template compilation/rendering engine and its
timeline data, shallowly embedded from the Rust sources.

Rust strings are embedded as `List Char`; offsets are character positions
(all placeholder syntax is ASCII, so the arithmetic of the byte-offset
code in `src/html.rs` is preserved verbatim). Fallible external calls
(the chrono date parser) are passed in as explicit oracles. The wall
clock read by the page renderer is passed in as a `RenderClock` record
of the three formatted strings the code obtains from it.
-/

namespace Noos

/- ===================== Data model, from src/data.rs ===================== -/

/-- The fields of `rss::Item` that the engine reads (`title()`,
`description()`, `link()`, `pub_date()` all return `Option<&str>`). -/
structure RssItem where
  title : Option String
  description : Option String
  link : Option String
  pub_date : Option String
deriving DecidableEq

/-- `TimelineItem` from src/data.rs: an item to be displayed in the timeline. -/
structure TimelineItem where
  item : RssItem
  channel_title : String
  channel_url : String
  timestamp : Int
deriving DecidableEq

/-- Modelled from the spec: the external chrono crate (not part of this
repository) supplies RFC2822 parsing and timestamp formatting. It is
embedded as an oracle record: `parseRfc2822` returns the parsed
date-time (as its timestamp) or `none` on failure, and `formatTs`
formats a parsed date-time with a format string. -/
structure Chrono where
  parseRfc2822 : String → Option Int
  formatTs : Int → String → String

/-- `TimelineItem::format_datetime` from src/data.rs: format an RFC2822
datetime string, or produce "(Invalid date)" when parsing fails. -/
def format_datetime (ch : Chrono) (datetime : String) (fmt : String) : String :=
  match ch.parseRfc2822 datetime with
  | some dt => ch.formatTs dt fmt
  | none => "(Invalid date)"

/-- `TimelineItem::title`: the title of the item, or "(No title)". -/
def TimelineItem.title (it : TimelineItem) : String :=
  it.item.title.getD "(No title)"

/-- `TimelineItem::description`: the description, or "(No description)". -/
def TimelineItem.description (it : TimelineItem) : String :=
  it.item.description.getD "(No description)"

/-- `TimelineItem::source`: the source of the item (the channel title). -/
def TimelineItem.source (it : TimelineItem) : String :=
  it.channel_title

/-- `TimelineItem::link`: the link of the item, or an empty string. -/
def TimelineItem.link (it : TimelineItem) : String :=
  it.item.link.getD ""

/-- `TimelineItem::date`: the date of the item, or an empty string. -/
def TimelineItem.date (ch : Chrono) (it : TimelineItem) : String :=
  (it.item.pub_date.map (fun d => format_datetime ch d "%Y-%m-%d")).getD ""

/-- `TimelineItem::time`: the time of the item, or an empty string. -/
def TimelineItem.time (ch : Chrono) (it : TimelineItem) : String :=
  (it.item.pub_date.map (fun d => format_datetime ch d "%H:%M:%S")).getD ""

/- ===================== HTML escaping ===================== -/

/-- Modelled from the spec: `html_escape::encode_safe` (an external crate)
escapes the characters & < > " and the single quote to their entity
forms; every other character is passed through unchanged. -/
def encodeChar (c : Char) : List Char :=
  if c = '&' then "&amp;".data
  else if c = '<' then "&lt;".data
  else if c = '>' then "&gt;".data
  else if c = '"' then "&quot;".data
  else if c = '\'' then "&#x27;".data
  else [c]

/-- Modelled from the spec: `html_escape::encode_safe` applied to a string. -/
def encode_safe (s : List Char) : List Char :=
  s.flatMap encodeChar

/- ===================== Placeholder scanner, from src/html.rs ===================== -/

/-- The literal text of the placeholder for a specifier name. -/
def litOf (name : String) : List Char :=
  '$' :: '{' :: (name.data ++ ['}'])

/-- One attempted match of the scanning regex at position `j` of the
template. The regex used by `find_format_specifiers` requires either the
start of the haystack, or any single character that is not a backslash,
immediately before the placeholder literal; a successful match returns
the position one past its last character. -/
def matchAt (t lit : List Char) (j : Nat) : Option Nat :=
  if j = 0 ∧ lit <+: t then some lit.length
  else if t[j]? ≠ some '\\' ∧ j < t.length ∧ lit <+: t.drop (j + 1) then
    some (j + 1 + lit.length)
  else none

/-- Scan forward from `pos` for the first regex match (fuel-indexed; the
fuel supplied by callers always suffices because no match can begin at or
beyond the end of the template). -/
def firstMatchFromGo (t lit : List Char) : Nat → Nat → Option (Nat × Nat)
  | 0, _ => none
  | fuel + 1, pos =>
    match matchAt t lit pos with
    | some e => some (pos, e)
    | none => firstMatchFromGo t lit fuel (pos + 1)

/-- First regex match at or after `pos`. -/
def firstMatchFrom (t lit : List Char) (pos : Nat) : Option (Nat × Nat) :=
  firstMatchFromGo t lit (t.length + 1 - pos) pos

/-- Successive non-overlapping regex matches: each search resumes at the
end of the previous match, exactly as `Regex::find_iter` does. -/
def findIterGo (t lit : List Char) : Nat → Nat → List (Nat × Nat)
  | 0, _ => []
  | fuel + 1, pos =>
    match firstMatchFrom t lit pos with
    | none => []
    | some m => m :: findIterGo t lit fuel m.2

/-- All non-overlapping matches of the scanning regex in the template. -/
def findIter (t lit : List Char) : List (Nat × Nat) :=
  findIterGo t lit (t.length + 1) 0

/-- The loop body of `find_format_specifiers`: from a regex match,
compute the recorded `(start, end)` pair. The start is adjusted past the
consumed leading character unless the whole match starts at position 0;
an occurrence whose adjusted start is preceded by a backslash is dropped
(the escape check). The recorded end is
`start + specifier.len() + "$\x7b\x7d".len()`, written `+ name.length + 3`. -/
def adjustMatch (t : List Char) (name : String) (m : Nat × Nat) : Option (Nat × Nat) :=
  let start := if m.1 = 0 then 0 else m.1 + 1
  if start > 0 ∧ t[start - 1]? = some '\\' then none
  else some (start, start + name.length + 3)

/-- `find_format_specifiers` from src/html.rs: the positions of all
occurrences of a format specifier in a template, as `(start, end)`
pairs. -/
def findFormatSpecifiers (t : List Char) (name : String) : List (Nat × Nat) :=
  (findIter t (litOf name)).filterMap (adjustMatch t name)

/- ===================== Compiled templates, from src/html.rs ===================== -/

/-- `ItemFormatSpecifier`: all well-defined format specifiers for item
templates. -/
inductive ItemFormatSpecifier where
  | Title
  | Description
  | Source
  | Link
  | Date
  | Time
  | Timestamp
  | ChannelLink
deriving DecidableEq

/-- The `Display` implementation for `ItemFormatSpecifier`. -/
def ItemFormatSpecifier.name : ItemFormatSpecifier → String
  | .Title => "title"
  | .Description => "description"
  | .Source => "source"
  | .Link => "link"
  | .Date => "date"
  | .Time => "time"
  | .Timestamp => "timestamp"
  | .ChannelLink => "channel_link"

/-- `PageFormatSpecifier`: all well-defined format specifiers for page
templates. -/
inductive PageFormatSpecifier where
  | Items
  | ItemCount
  | ChannelCount
  | Date
  | Time
  | Timestamp
deriving DecidableEq

/-- The `Display` implementation for `PageFormatSpecifier`. -/
def PageFormatSpecifier.name : PageFormatSpecifier → String
  | .Items => "items"
  | .ItemCount => "item_count"
  | .ChannelCount => "channel_count"
  | .Date => "date"
  | .Time => "time"
  | .Timestamp => "timestamp"

/-- `Substitution<F>`: a position of a format specifier in a template
string. The Rust field named `end` is called `endPos` here because `end`
is reserved in Lean. -/
structure Substitution (F : Type) where
  start : Nat
  endPos : Nat
  specifier : F
deriving DecidableEq

/-- Comparison of substitutions by start offset, the sort key used by
`parse` (`substitutions.sort_by_key(|s| s.start)`). -/
def leStart {F : Type} (a b : Substitution F) : Prop :=
  a.start ≤ b.start

instance {F : Type} : DecidableRel (@leStart F) :=
  fun a b => inferInstanceAs (Decidable (a.start ≤ b.start))

instance {F : Type} : IsTotal (Substitution F) leStart :=
  ⟨fun a b => Nat.le_total a.start b.start⟩

instance {F : Type} : IsTrans (Substitution F) leStart :=
  ⟨fun _ _ _ hab hbc => Nat.le_trans hab hbc⟩

/-- The substitution list built by `Template::parse`: for each specifier
in order, collect its occurrences, then sort the combined list by start
offset (a stable sort, matching `sort_by_key`). -/
def parseSubsts {F : Type} (nameOf : F → String) (specs : List F) (t : List Char) :
    List (Substitution F) :=
  List.insertionSort leStart
    (specs.flatMap (fun spec =>
      (findFormatSpecifiers t (nameOf spec)).map (fun p =>
        { start := p.1, endPos := p.2, specifier := spec })))

/-- The specifier scan order of `ItemTemplate::parse`. -/
def itemSpecifiers : List ItemFormatSpecifier :=
  [.Title, .Description, .Source, .Link, .Date, .Time, .Timestamp, .ChannelLink]

/-- The specifier scan order of `PageTemplate::parse`. -/
def pageSpecifiers : List PageFormatSpecifier :=
  [.Items, .ItemCount, .ChannelCount, .Date, .Time, .Timestamp]

/-- `ItemTemplate`: a minimally pre-parsed item template. -/
structure ItemTemplate where
  template : List Char
  substitutions : List (Substitution ItemFormatSpecifier)
deriving DecidableEq

/-- `PageTemplate`: a minimally pre-parsed page template. -/
structure PageTemplate where
  template : List Char
  substitutions : List (Substitution PageFormatSpecifier)
deriving DecidableEq

/-- `ItemTemplate::parse`. -/
def ItemTemplate.parse (template : String) : ItemTemplate :=
  { template := template.data
    substitutions := parseSubsts ItemFormatSpecifier.name itemSpecifiers template.data }

/-- `PageTemplate::parse`. -/
def PageTemplate.parse (template : String) : PageTemplate :=
  { template := template.data
    substitutions := parseSubsts PageFormatSpecifier.name pageSpecifiers template.data }

/-- `encode_specifier_with_size` from src/html.rs: the html-encoded
string together with its size contribution, the encoded length minus the
length of the specifier literal (`"${}".len()` is written 3). -/
def encode_specifier_with_size (s : String) (name : String) : List Char × Int :=
  let encoded := encode_safe s.data
  (encoded, (encoded.length : Int) - 3 - (name.length : Int))

/-- The splice loop shared by both `render` implementations: walk the
sorted substitution list, copying template text between occurrences
verbatim and splicing in the encoded value at each occurrence, then copy
the remaining template tail. -/
def spliceGo {F : Type} (t : List Char) (enc : F → List Char) :
    Nat → List (Substitution F) → List Char
  | lastPos, [] => t.drop lastPos
  | lastPos, s :: rest =>
    (t.drop lastPos).take (s.start - lastPos) ++ enc s.specifier ++
      spliceGo t enc s.endPos rest

/-- The entry field value selected for each item specifier, as computed
at the top of `ItemTemplate::render` (`item_title`, `item_description`,
and so on). -/
def TimelineItem.fieldValue (ch : Chrono) (it : TimelineItem) :
    ItemFormatSpecifier → String
  | .Title => it.title
  | .Description => it.description
  | .Source => it.source
  | .Link => it.link
  | .Date => it.date ch
  | .Time => it.time ch
  | .Timestamp => toString it.timestamp
  | .ChannelLink => it.channel_url

/-- `ItemTemplate::render`: substitute the html-encoded field values of
one entry into the compiled template. -/
def ItemTemplate.render (tpl : ItemTemplate) (ch : Chrono) (it : TimelineItem) :
    List Char :=
  spliceGo tpl.template
    (fun spec => encode_safe (TimelineItem.fieldValue ch it spec).data)
    0 tpl.substitutions

/-- The predicted output size computed by `ItemTemplate::render` before
assembly: the template length plus, for each substitution, the size
contribution of its encoded value. -/
def ItemTemplate.size (tpl : ItemTemplate) (ch : Chrono) (it : TimelineItem) : Int :=
  (tpl.template.length : Int) +
    (tpl.substitutions.map (fun s =>
      (encode_specifier_with_size (TimelineItem.fieldValue ch it s.specifier)
        s.specifier.name).2)).sum

/-- The three formatted strings that `PageTemplate::render` obtains from
`chrono::Utc::now()` (wall clock at render time). -/
structure RenderClock where
  date : String
  time : String
  timestamp : String
deriving DecidableEq

/-- The `items` string of `PageTemplate::render`: every entry of the
slice rendered with the item template and concatenated, in slice order. -/
def PageTemplate.itemsValue (ch : Chrono) (itemT : ItemTemplate)
    (content : List TimelineItem) : List Char :=
  (content.map (fun it => itemT.render ch it)).flatten

/-- The `channel_count` value: the number of distinct `channel_url`
values in the slice (a `HashSet` cardinality in the source). -/
def channelCount (content : List TimelineItem) : Nat :=
  ((content.map (fun it => it.channel_url)).dedup).length

/-- The encoded substitution value for each page specifier, as computed
by `PageTemplate::render`: the `items` value is spliced as is (already
encoded during item rendering), the aggregate scalars are html-encoded. -/
def PageTemplate.fieldEncoded (ch : Chrono) (content : List TimelineItem)
    (itemT : ItemTemplate) (clock : RenderClock) : PageFormatSpecifier → List Char
  | .Items => PageTemplate.itemsValue ch itemT content
  | .ItemCount => encode_safe (toString content.length).data
  | .ChannelCount => encode_safe (toString (channelCount content)).data
  | .Date => encode_safe clock.date.data
  | .Time => encode_safe clock.time.data
  | .Timestamp => encode_safe clock.timestamp.data

/-- `PageTemplate::render`: substitute the aggregate values and the
concatenated `items` string into the compiled page template. -/
def PageTemplate.render (tpl : PageTemplate) (ch : Chrono)
    (content : List TimelineItem) (itemT : ItemTemplate) (clock : RenderClock) :
    List Char :=
  spliceGo tpl.template (PageTemplate.fieldEncoded ch content itemT clock)
    0 tpl.substitutions

/-- The per-substitution size contribution of `PageTemplate::render`:
for `items` the length of the concatenation minus the literal
`${items}`, for every other specifier the contribution computed by
`encode_specifier_with_size`. -/
def PageTemplate.substSize (ch : Chrono) (content : List TimelineItem)
    (itemT : ItemTemplate) (clock : RenderClock) : PageFormatSpecifier → Int
  | .Items =>
    ((PageTemplate.itemsValue ch itemT content).length : Int) -
      ("${items}".length : Int)
  | .ItemCount => (encode_specifier_with_size (toString content.length) "item_count").2
  | .ChannelCount =>
    (encode_specifier_with_size (toString (channelCount content)) "channel_count").2
  | .Date => (encode_specifier_with_size clock.date "date").2
  | .Time => (encode_specifier_with_size clock.time "time").2
  | .Timestamp => (encode_specifier_with_size clock.timestamp "timestamp").2

/-- The predicted output size computed by `PageTemplate::render` before
assembly. -/
def PageTemplate.size (tpl : PageTemplate) (ch : Chrono)
    (content : List TimelineItem) (itemT : ItemTemplate) (clock : RenderClock) : Int :=
  (tpl.template.length : Int) +
    (tpl.substitutions.map (fun s =>
      PageTemplate.substSize ch content itemT clock s.specifier)).sum

/- ===================== Verification predicates ===================== -/

/-- The placeholder literal of `name` occurs in `t` at position `p`. -/
def litAt (t : List Char) (name : String) (p : Nat) : Prop :=
  litOf name <+: t.drop p

/-- What it means for `(start, end)` to be recorded by the scanner: the
end offset is start plus the literal length, and the placeholder literal
occurs at the start (with no backslash immediately before it), except
that a match beginning at position 0 through the consumed-character
branch of the regex records start 0 while the literal actually sits at
position 1. -/
def RecOk (t : List Char) (name : String) (q : Nat × Nat) : Prop :=
  q.2 = q.1 + (litOf name).length ∧
    ((0 < q.1 ∧ t[q.1 - 1]? ≠ some '\\' ∧ litAt t name q.1) ∨
      (q.1 = 0 ∧ litAt t name 0) ∨
      (q.1 = 0 ∧ t[0]? ≠ some '\\' ∧ litAt t name 1))

/-- The syntactic property every recognized placeholder name enjoys: it
contains neither a dollar sign nor a closing brace. -/
def NiceName (name : String) : Prop :=
  '$' ∉ name.data ∧ '}' ∉ name.data

instance : DecidablePred NiceName := fun name => by
  unfold NiceName
  infer_instance

/-- A substitution entry is sound for a template when its recorded
offsets are the scanner record of its specifier name. -/
def SubstOk {F : Type} (nameOf : F → String) (t : List Char)
    (s : Substitution F) : Prop :=
  RecOk t (nameOf s.specifier) (s.start, s.endPos)

/-- Interval disjointness of substitutions, a symmetric relation. -/
def SubstDisj {F : Type} (a b : Substitution F) : Prop :=
  a.endPos ≤ b.start ∨ b.endPos ≤ a.start

/- ===================== Concrete fixtures ===================== -/

/-- A chrono oracle whose parser rejects every string (a concrete stand
in for inputs the RFC2822 parser cannot parse). -/
def chNone : Chrono :=
  { parseRfc2822 := fun _ => none, formatTs := fun _ _ => "" }

/-- An entry with all optional fields present and no publish date. -/
def itPlain : TimelineItem :=
  { item := { title := some "T", description := some "D", link := some "L",
              pub_date := none },
    channel_title := "CT", channel_url := "CU", timestamp := 100 }

/-- An entry whose timestamp 300 lies beyond the render times used in
the examples. -/
def itFuture : TimelineItem :=
  { item := { title := some "F", description := none, link := none,
              pub_date := none },
    channel_title := "CF", channel_url := "UF", timestamp := 300 }

/-- An entry with a given timestamp and no other data. -/
def itTs (n : Int) : TimelineItem :=
  { item := { title := none, description := none, link := none, pub_date := none },
    channel_title := "C", channel_url := "U", timestamp := n }

/-- An entry whose title contains markup that must be escaped. -/
def itScript : TimelineItem :=
  { item := { title := some "<script>", description := none, link := none,
              pub_date := none },
    channel_title := "C", channel_url := "U", timestamp := 0 }

/-- An entry whose title contains an ampersand. -/
def itAmp : TimelineItem :=
  { item := { title := some "fish & chips", description := none, link := none,
              pub_date := none },
    channel_title := "C", channel_url := "U", timestamp := 0 }

/-- An entry carrying a publish date string that does not parse. -/
def itBadDate : TimelineItem :=
  { item := { title := none, description := none, link := none,
              pub_date := some "not a date" },
    channel_title := "C", channel_url := "U", timestamp := 0 }

/-- An entry carrying no publish date at all. -/
def itNoDate : TimelineItem :=
  { item := { title := none, description := none, link := none, pub_date := none },
    channel_title := "C", channel_url := "U", timestamp := 0 }

/- ===================== Scanner lemmas ===================== -/

lemma litOf_length (name : String) : (litOf name).length = name.length + 3 := by
  have h : name.length = name.data.length := rfl
  rw [h, litOf]
  simp only [List.length_cons, List.length_append, List.length_singleton,
    List.length_nil]

lemma litOf_length_pos (name : String) : 0 < (litOf name).length := by
  simp [litOf]

/-- If `l₁` is a prefix of `l₂`, the two lists agree at every index of `l₁`. -/
lemma prefixGetElem {α : Type _} {l₁ l₂ : List α} (h : l₁ <+: l₂) {i : Nat}
    (hi : i < l₁.length) : l₂[i]? = l₁[i]? := by
  obtain ⟨r, rfl⟩ := h
  exact List.getElem?_append_left hi

lemma litAt_getElem {t : List Char} {name : String} {p : Nat} (h : litAt t name p)
    {i : Nat} (hi : i < (litOf name).length) : t[p + i]? = (litOf name)[i]? := by
  have := prefixGetElem h hi
  rwa [List.getElem?_drop] at this

lemma litAt_dollar {t : List Char} {name : String} {p : Nat} (h : litAt t name p) :
    t[p]? = some '$' := by
  have := litAt_getElem h (litOf_length_pos name)
  simpa [litOf] using this

lemma litOf_tail_ne_dollar {name : String} (hn : '$' ∉ name.data) {i : Nat}
    (h0 : 0 < i) (hi : i < (litOf name).length) : (litOf name)[i]? ≠ some '$' := by
  intro hc
  match i, h0 with
  | 1, _ => simp [litOf] at hc
  | (k + 2), _ =>
    have he : (litOf name)[k + 2]? = (name.data ++ ['}'])[k]? := by
      simp [litOf]
    rw [he] at hc
    have hmem := List.getElem?_mem hc
    rcases List.mem_append.1 hmem with h | h
    · exact hn h
    · simp at h

/-- Two placeholder literals in the template cannot properly overlap:
the second literal would have to put its `$` inside the first. -/
lemma litAt_overlap_false {t : List Char} {a b : String} {p q : Nat}
    (hna : '$' ∉ a.data) (ha : litAt t a p) (hb : litAt t b q)
    (h1 : p < q) (h2 : q < p + (litOf a).length) : False := by
  have hq : t[q]? = some '$' := litAt_dollar hb
  have hgap : p + (q - p) = q := by omega
  have he := litAt_getElem ha (i := q - p) (by omega)
  rw [hgap] at he
  exact litOf_tail_ne_dollar hna (by omega) (by omega) (he ▸ hq)

/-- If the literal of one name is a prefix of the literal of another
name whose characters do not contain a closing brace, the names are
equal. -/
lemma litOf_prefix_eq {a b : String} (hab : litOf a <+: litOf b)
    (hb : '}' ∉ b.data) : a = b := by
  rw [litOf, litOf, List.cons_prefix_cons] at hab
  rw [List.cons_prefix_cons] at hab
  replace hab := hab.2.2
  rcases Nat.lt_or_ge a.data.length b.data.length with h | h
  · exfalso
    have hlhs : (a.data ++ ['}'])[a.data.length]? = some '}' :=
      List.getElem?_concat_length a.data '}'
    have hrhs := prefixGetElem hab (i := a.data.length)
      (by simp only [List.length_append, List.length_singleton]; omega)
    rw [hlhs] at hrhs
    have hrd : (b.data ++ ['}'])[a.data.length]? = b.data[a.data.length]? :=
      List.getElem?_append_left h
    rw [hrd] at hrhs
    exact hb (List.getElem?_mem hrhs)
  · have hle := hab.length_le
    simp only [List.length_append, List.length_singleton] at hle
    have hlen : (a.data ++ ['}']).length = (b.data ++ ['}']).length := by
      simp only [List.length_append, List.length_singleton]
      omega
    have heq := hab.eq_of_length hlen
    have hdata : a.data = b.data := (List.append_inj heq (by omega)).1
    exact String.ext hdata

/-- Two placeholder literals at the same position have the same name. -/
lemma litAt_inj {t : List Char} {a b : String} {p : Nat}
    (hja : '}' ∉ a.data) (hjb : '}' ∉ b.data)
    (ha : litAt t a p) (hb : litAt t b p) : a = b := by
  rcases List.prefix_or_prefix_of_prefix ha hb with h | h
  · exact litOf_prefix_eq h hjb
  · exact (litOf_prefix_eq h hja).symm

lemma matchAt_sound {t lit : List Char} {j e : Nat} (h : matchAt t lit j = some e) :
    (j = 0 ∧ lit <+: t ∧ e = lit.length) ∨
      (t[j]? ≠ some '\\' ∧ j < t.length ∧ lit <+: t.drop (j + 1) ∧
        e = j + 1 + lit.length) := by
  unfold matchAt at h
  split at h
  · rename_i hc
    exact Or.inl ⟨hc.1, hc.2, (Option.some.inj h).symm⟩
  · split at h
    · rename_i hc
      exact Or.inr ⟨hc.1, hc.2.1, hc.2.2, (Option.some.inj h).symm⟩
    · exact absurd h (by simp)

lemma matchAt_bounds {t lit : List Char} (hl : 0 < lit.length) {j e : Nat}
    (h : matchAt t lit j = some e) : j < e ∧ e ≤ t.length := by
  rcases matchAt_sound h with ⟨hj, hp, he⟩ | ⟨_, hj, hp, he⟩
  · subst hj; subst he
    exact ⟨hl, hp.length_le⟩
  · subst he
    have := hp.length_le
    rw [List.length_drop] at this
    omega

lemma firstMatchFromGo_sound {t lit : List Char} :
    ∀ {fuel pos : Nat} {m : Nat × Nat}, firstMatchFromGo t lit fuel pos = some m →
      pos ≤ m.1 ∧ matchAt t lit m.1 = some m.2 := by
  intro fuel
  induction fuel with
  | zero => intro pos m h; simp [firstMatchFromGo] at h
  | succ n ih =>
    intro pos m h
    unfold firstMatchFromGo at h
    split at h
    · rename_i e' he
      obtain rfl : (pos, e') = m := Option.some.inj h
      exact ⟨Nat.le_refl _, he⟩
    · have := ih h
      exact ⟨by omega, this.2⟩

lemma findIterGo_mem {t lit : List Char} (hl : 0 < lit.length) :
    ∀ {fuel pos : Nat} {m : Nat × Nat}, m ∈ findIterGo t lit fuel pos →
      pos ≤ m.1 ∧ matchAt t lit m.1 = some m.2 := by
  intro fuel
  induction fuel with
  | zero => intro pos m hm; simp [findIterGo] at hm
  | succ n ih =>
    intro pos m hm
    unfold findIterGo at hm
    split at hm
    · simp at hm
    · rename_i m0 h0
      unfold firstMatchFrom at h0
      have hm0 := firstMatchFromGo_sound h0
      rcases List.mem_cons.1 hm with rfl | hm'
      · exact hm0
      · have h1 := ih hm'
        have h2 := matchAt_bounds hl hm0.2
        exact ⟨by omega, h1.2⟩

lemma findIterGo_pairwise {t lit : List Char} (hl : 0 < lit.length) :
    ∀ {fuel pos : Nat},
      List.Pairwise (fun a b : Nat × Nat => a.2 ≤ b.1) (findIterGo t lit fuel pos) := by
  intro fuel
  induction fuel with
  | zero => intro pos; simp [findIterGo]
  | succ n ih =>
    intro pos
    unfold findIterGo
    split
    · simp
    · rename_i m0 h0
      rw [List.pairwise_cons]
      exact ⟨fun b hb => (findIterGo_mem hl hb).1, ih⟩

lemma adjustMatch_eq {t : List Char} {name : String} {m q : Nat × Nat}
    (h : adjustMatch t name m = some q) :
    (m.1 = 0 ∧ q = (0, name.length + 3)) ∨
      (m.1 ≠ 0 ∧ t[m.1]? ≠ some '\\' ∧
        q = (m.1 + 1, m.1 + 1 + name.length + 3)) := by
  by_cases h0 : m.1 = 0
  · left
    refine ⟨h0, ?_⟩
    simp [adjustMatch, h0] at h
    exact h.symm
  · right
    by_cases hb : t[m.1]? = some '\\'
    · exfalso
      simp [adjustMatch, h0, hb] at h
    · refine ⟨h0, hb, ?_⟩
      simp [adjustMatch, h0, hb] at h
      exact h.symm

lemma findFormatSpecifiers_sound {t : List Char} {name : String} {q : Nat × Nat}
    (hq : q ∈ findFormatSpecifiers t name) : RecOk t name q := by
  unfold findFormatSpecifiers findIter at hq
  rcases List.mem_filterMap.1 hq with ⟨m, hm, hf⟩
  have hs := (findIterGo_mem (litOf_length_pos name) hm).2
  have hlit := litOf_length name
  rcases adjustMatch_eq hf with ⟨hj0, rfl⟩ | ⟨hj0, hnb, rfl⟩
  · refine ⟨by simp [hlit], ?_⟩
    rcases matchAt_sound hs with ⟨_, hp, _⟩ | ⟨hnb, _, hp, _⟩
    · refine Or.inr (Or.inl ⟨rfl, ?_⟩)
      rw [litAt, List.drop_zero]
      exact hp
    · rw [hj0] at hnb hp
      refine Or.inr (Or.inr ⟨rfl, hnb, ?_⟩)
      rw [litAt]
      simpa using hp
  · refine ⟨by simp [hlit]; omega, ?_⟩
    rcases matchAt_sound hs with ⟨hj, _, _⟩ | ⟨hnb', _, hp, _⟩
    · exact absurd hj hj0
    · refine Or.inl ⟨by omega, ?_, hp⟩
      simpa using hnb

lemma matchAt_end_facts {t lit : List Char} {j e : Nat}
    (h : matchAt t lit j = some e) :
    lit.length ≤ e ∧ (j ≠ 0 → e = j + 1 + lit.length) := by
  rcases matchAt_sound h with ⟨hj, _, he⟩ | ⟨_, _, _, he⟩
  · subst he
    exact ⟨Nat.le_refl _, fun hn => absurd hj hn⟩
  · subst he
    exact ⟨by omega, fun _ => rfl⟩

/-- Transfer a pairwise relation through `filterMap`, keeping membership
information available. -/
lemma pairwise_filterMap_mem {α β : Type _} {R : α → α → Prop} {S : β → β → Prop}
    (f : α → Option β) :
    ∀ {l : List α}, List.Pairwise R l →
      (∀ a ∈ l, ∀ b ∈ l, ∀ x y, R a b → f a = some x → f b = some y → S x y) →
      List.Pairwise S (l.filterMap f) := by
  intro l
  induction l with
  | nil => intro _ _; simp
  | cons a l ih =>
    intro hp h
    rw [List.pairwise_cons] at hp
    rw [List.filterMap_cons]
    split
    · exact ih hp.2 (fun x hx y hy => h x (List.mem_cons_of_mem a hx) y
        (List.mem_cons_of_mem a hy))
    · rename_i x hx
      rw [List.pairwise_cons]
      constructor
      · intro y hy
        rcases List.mem_filterMap.1 hy with ⟨b, hb, hfb⟩
        exact h a (List.mem_cons_self a l) b (List.mem_cons_of_mem a hb) x y
          (hp.1 b hb) hx hfb
      · exact ih hp.2 (fun u hu v hv => h u (List.mem_cons_of_mem a hu) v
          (List.mem_cons_of_mem a hv))

lemma findFormatSpecifiers_pairwise (t : List Char) (name : String) :
    List.Pairwise (fun a b : Nat × Nat => a.2 ≤ b.1)
      (findFormatSpecifiers t name) := by
  unfold findFormatSpecifiers findIter
  refine pairwise_filterMap_mem _ (findIterGo_pairwise (litOf_length_pos name)) ?_
  intro m1 h1 m2 h2 x y hR hx hy
  have s1 := (findIterGo_mem (litOf_length_pos name) h1).2
  have s2 := (findIterGo_mem (litOf_length_pos name) h2).2
  have hb1 := matchAt_bounds (litOf_length_pos name) s1
  have hb2 := matchAt_bounds (litOf_length_pos name) s2
  have he1 := matchAt_end_facts s1
  have hlit := litOf_length name
  -- the recorded end never exceeds the match end,
  -- and the recorded start never precedes the match start
  rcases adjustMatch_eq hx with ⟨hj0, rfl⟩ | ⟨hj0, _, rfl⟩ <;>
      rcases adjustMatch_eq hy with ⟨hk0, rfl⟩ | ⟨hk0, _, rfl⟩
  · dsimp only
    omega
  · dsimp only
    have := he1.1
    omega
  · dsimp only
    omega
  · dsimp only
    have := he1.2 hj0
    omega

/- ===================== Cross-specifier disjointness ===================== -/

/-- Every recorded occurrence corresponds to a real placeholder literal
at its recorded start, or one position to the right when the recorded
start is 0. -/
lemma recOk_cases {t : List Char} {name : String} {q : Nat × Nat}
    (h : RecOk t name q) :
    ∃ p, litAt t name p ∧ q.2 = q.1 + (litOf name).length ∧
      (p = q.1 ∨ (q.1 = 0 ∧ p = 1)) := by
  obtain ⟨he, h1 | h2 | h3⟩ := h
  · exact ⟨q.1, h1.2.2, he, Or.inl rfl⟩
  · exact ⟨0, h2.2, he, Or.inl h2.1.symm⟩
  · exact ⟨1, h3.2.2, he, Or.inr ⟨h3.1, rfl⟩⟩

/-- One direction of interval disjointness, used symmetrically below:
when the real literal of the first occurrence sits strictly left of the
second, the first recorded interval ends at or before the second
recorded interval starts. -/
lemma recOk_disjoint_of_lt {t : List Char} {a b : String} {qa qb : Nat × Nat}
    {pa pb : Nat} (na : NiceName a)
    (hla : litAt t a pa) (hlb : litAt t b pb)
    (hea : qa.2 = qa.1 + (litOf a).length) (hpa : pa = qa.1 ∨ (qa.1 = 0 ∧ pa = 1))
    (hpb : pb = qb.1 ∨ (qb.1 = 0 ∧ pb = 1))
    (hlt : pa < pb) : qa.2 ≤ qb.1 := by
  have hge : pa + (litOf a).length ≤ pb := by
    by_contra hc
    exact litAt_overlap_false na.1 hla hlb hlt (by omega)
  have h3 : (litOf a).length = a.length + 3 := litOf_length a
  rcases hpb with rfl | ⟨hq0, rfl⟩
  · rcases hpa with rfl | ⟨hq0a, rfl⟩ <;> omega
  · rcases hpa with rfl | ⟨hq0a, rfl⟩ <;> omega

/-- Two recorded occurrences of distinct recognized specifier names
never overlap. -/
lemma recOk_disjoint {t : List Char} {a b : String} {qa qb : Nat × Nat}
    (na : NiceName a) (nb : NiceName b) (hab : a ≠ b)
    (ha : RecOk t a qa) (hb : RecOk t b qb) :
    qa.2 ≤ qb.1 ∨ qb.2 ≤ qa.1 := by
  obtain ⟨pa, hla, hea, hpa⟩ := recOk_cases ha
  obtain ⟨pb, hlb, heb, hpb⟩ := recOk_cases hb
  rcases Nat.lt_trichotomy pa pb with h | h | h
  · exact Or.inl (recOk_disjoint_of_lt na hla hlb hea hpa hpb h)
  · subst h
    exact absurd (litAt_inj na.2 nb.2 hla hlb) hab
  · exact Or.inr (recOk_disjoint_of_lt nb hlb hla heb hpb hpa h)

/-- Every recorded occurrence describes a non-empty interval inside the
template. -/
lemma recOk_bounds {t : List Char} {name : String} {q : Nat × Nat}
    (h : RecOk t name q) : q.1 < q.2 ∧ q.2 ≤ t.length := by
  obtain ⟨p, hl, he, hp⟩ := recOk_cases h
  have hlen := hl.length_le
  rw [List.length_drop] at hlen
  have h3 : (litOf name).length = name.length + 3 := litOf_length name
  rcases hp with rfl | ⟨h0, rfl⟩ <;> omega

/- ===================== Parsed-template invariants ===================== -/

lemma parseSubsts_mem {F : Type} {nameOf : F → String} {specs : List F}
    {t : List Char} {s : Substitution F} (hs : s ∈ parseSubsts nameOf specs t) :
    SubstOk nameOf t s ∧ s.specifier ∈ specs := by
  unfold parseSubsts at hs
  rw [ (List.perm_insertionSort leStart _).mem_iff] at hs
  rcases List.mem_flatMap.1 hs with ⟨spec, hspec, hmem⟩
  rcases List.mem_map.1 hmem with ⟨p, hp, rfl⟩
  exact ⟨findFormatSpecifiers_sound hp, hspec⟩

lemma parseSubsts_pairwise_disjoint {F : Type} {nameOf : F → String}
    {specs : List F} {t : List Char}
    (hnice : ∀ f ∈ specs, NiceName (nameOf f))
    (hinj : List.Pairwise (fun f g => nameOf f ≠ nameOf g) specs) :
    List.Pairwise SubstDisj (parseSubsts nameOf specs t) := by
  unfold parseSubsts
  rw [ (List.perm_insertionSort leStart _).pairwise_iff
    (fun h => h.elim (fun h1 => Or.inr h1) (fun h1 => Or.inl h1))]
  rw [List.pairwise_flatMap]
  constructor
  · intro f hf
    rw [List.pairwise_map]
    refine (findFormatSpecifiers_pairwise t (nameOf f)).imp ?_
    intro p1 p2 h
    exact Or.inl h
  · refine hinj.imp_of_mem ?_
    intro f g hfmem hgmem hne x hx y hy
    rcases List.mem_map.1 hx with ⟨p, hp, rfl⟩
    rcases List.mem_map.1 hy with ⟨r, hr, rfl⟩
    exact recOk_disjoint (hnice f hfmem) (hnice g hgmem) hne
      (findFormatSpecifiers_sound hp) (findFormatSpecifiers_sound hr)

lemma parseSubsts_sorted {F : Type} (nameOf : F → String) (specs : List F)
    (t : List Char) :
    List.Pairwise leStart (parseSubsts nameOf specs t) :=
  List.sorted_insertionSort leStart _

/-- The combined invariant actually used by the renderer: the parsed
substitution list is chained, each interval ending at or before the next
begins. -/
lemma parseSubsts_chain {F : Type} {nameOf : F → String} {specs : List F}
    {t : List Char}
    (hnice : ∀ f ∈ specs, NiceName (nameOf f))
    (hinj : List.Pairwise (fun f g => nameOf f ≠ nameOf g) specs) :
    List.Pairwise (fun a b : Substitution F => a.endPos ≤ b.start)
      (parseSubsts nameOf specs t) := by
  have h1 := parseSubsts_sorted nameOf specs t
  have h2 := parseSubsts_pairwise_disjoint hnice hinj (t := t)
  refine (h1.and h2).imp_of_mem ?_
  intro a b _ hbmem hab
  rcases hab.2 with h | h
  · exact h
  · have hb := (recOk_bounds (parseSubsts_mem hbmem).1).1
    have hle : a.start ≤ b.start := hab.1
    dsimp only at hb
    omega

/-- The eight item-level names are all nice. -/
lemma itemNames_nice : ∀ f ∈ itemSpecifiers, NiceName (ItemFormatSpecifier.name f) := by
  decide

/-- The eight item-level names are pairwise distinct. -/
lemma itemNames_distinct :
    List.Pairwise (fun f g => ItemFormatSpecifier.name f ≠ ItemFormatSpecifier.name g)
      itemSpecifiers := by
  decide

/-- The six page-level names are all nice. -/
lemma pageNames_nice : ∀ f ∈ pageSpecifiers, NiceName (PageFormatSpecifier.name f) := by
  decide

/-- The six page-level names are pairwise distinct. -/
lemma pageNames_distinct :
    List.Pairwise (fun f g => PageFormatSpecifier.name f ≠ PageFormatSpecifier.name g)
      pageSpecifiers := by
  decide

lemma itemParse_substOk (tmpl : String) :
    ∀ s ∈ (ItemTemplate.parse tmpl).substitutions,
      SubstOk ItemFormatSpecifier.name tmpl.data s :=
  fun _ hs => (parseSubsts_mem hs).1

lemma itemParse_chain (tmpl : String) :
    List.Pairwise (fun a b : Substitution ItemFormatSpecifier => a.endPos ≤ b.start)
      (ItemTemplate.parse tmpl).substitutions :=
  parseSubsts_chain itemNames_nice itemNames_distinct

lemma pageParse_substOk (tmpl : String) :
    ∀ s ∈ (PageTemplate.parse tmpl).substitutions,
      SubstOk PageFormatSpecifier.name tmpl.data s :=
  fun _ hs => (parseSubsts_mem hs).1

lemma pageParse_chain (tmpl : String) :
    List.Pairwise (fun a b : Substitution PageFormatSpecifier => a.endPos ≤ b.start)
      (PageTemplate.parse tmpl).substitutions :=
  parseSubsts_chain pageNames_nice pageNames_distinct

/- ===================== Splice length ===================== -/

/-- The length of the splice loop output, for any chained, in-bounds
substitution list: each interval is replaced by its encoded value, all
remaining template text is copied once. -/
lemma spliceGo_length {F : Type} (t : List Char) (enc : F → List Char)
    (subs : List (Substitution F)) :
    ∀ lastPos : Nat, lastPos ≤ t.length →
      (∀ s ∈ subs, lastPos ≤ s.start ∧ s.start < s.endPos ∧ s.endPos ≤ t.length) →
      List.Pairwise (fun a b : Substitution F => a.endPos ≤ b.start) subs →
      (spliceGo t enc lastPos subs).length +
          (subs.map (fun s => s.endPos - s.start)).sum =
        (t.length - lastPos) + (subs.map (fun s => (enc s.specifier).length)).sum := by
  induction subs with
  | nil =>
    intro lastPos hlp _ _
    simp [spliceGo]
  | cons s rest ih =>
    intro lastPos hlp hmem hpw
    obtain ⟨hstart, hlt, hle⟩ := hmem s (List.mem_cons_self s rest)
    rw [List.pairwise_cons] at hpw
    have hrec := ih s.endPos hle
      (fun r hr => ⟨hpw.1 r hr, (hmem r (List.mem_cons_of_mem s hr)).2⟩) hpw.2
    simp only [spliceGo, List.length_append, List.length_take, List.length_drop,
      List.map_cons, List.sum_cons]
    rw [Nat.min_eq_left (by omega)]
    omega

/-- Sum of pointwise integer differences. -/
lemma sum_int_sub {α : Type _} (l : List α) (f g : α → Int) :
    (l.map (fun x => f x - g x)).sum = (l.map f).sum - (l.map g).sum := by
  induction l with
  | nil => simp
  | cons a l ih =>
    simp [ih]
    ring

/-- Casting a sum of naturals into the integers, pointwise. -/
lemma sum_natCast {α : Type _} (l : List α) (f : α → Nat) :
    (((l.map f).sum : Nat) : Int) = (l.map (fun x => ((f x : Nat) : Int))).sum := by
  induction l with
  | nil => simp
  | cons a l ih => simp [ih]

/-- The generic size law: for a parsed (sound and chained) substitution
list the splice output length equals the template length plus the sum of
the per-occurrence contributions, each being the encoded value length
minus the placeholder literal length. -/
lemma renderSize_generic {F : Type} (t : List Char) (enc : F → List Char)
    (nameOf : F → String) (subs : List (Substitution F))
    (hmem : ∀ s ∈ subs, SubstOk nameOf t s)
    (hpw : List.Pairwise (fun a b : Substitution F => a.endPos ≤ b.start) subs) :
    ((spliceGo t enc 0 subs).length : Int) =
      (t.length : Int) + (subs.map (fun s =>
        ((enc s.specifier).length : Int) - ((nameOf s.specifier).length : Int) - 3)).sum := by
  have hb : ∀ s ∈ subs, 0 ≤ s.start ∧ s.start < s.endPos ∧ s.endPos ≤ t.length := by
    intro s hs
    have := recOk_bounds (hmem s hs)
    exact ⟨Nat.zero_le _, this.1, this.2⟩
  have hq := spliceGo_length t enc subs 0 (Nat.zero_le _) hb hpw
  rw [Nat.sub_zero] at hq
  have hdelta : subs.map (fun s => s.endPos - s.start) =
      subs.map (fun s => (nameOf s.specifier).length + 3) := by
    refine List.map_congr_left ?_
    intro s hs
    have h1 := (hmem s hs).1
    dsimp only at h1
    rw [litOf_length] at h1
    omega
  rw [hdelta] at hq
  have hsplit : (subs.map (fun s =>
      ((enc s.specifier).length : Int) - ((nameOf s.specifier).length : Int) - 3)).sum =
        (subs.map (fun s => ((enc s.specifier).length : Int))).sum -
          (subs.map (fun s => (((nameOf s.specifier).length + 3 : Nat) : Int))).sum := by
    rw [← sum_int_sub]
    refine congrArg List.sum (List.map_congr_left ?_)
    intro s _
    push_cast
    ring
  rw [hsplit, ← sum_natCast, ← sum_natCast]
  omega

/- ===================== Render helpers ===================== -/

lemma spliceGo_empty {F : Type} (t : List Char) (enc : F → List Char)
    (lastPos : Nat) : spliceGo t enc lastPos [] = t.drop lastPos :=
  rfl

lemma spliceGo_single {F : Type} (t : List Char) (enc : F → List Char)
    (s : Substitution F) :
    spliceGo t enc 0 [s] =
      (t.drop 0).take (s.start - 0) ++ enc s.specifier ++ t.drop s.endPos :=
  rfl

/-- Rendering a page template with an empty substitution list returns
the template text unchanged. -/
lemma pageRender_of_empty_substs {tmpl : String}
    (h : (PageTemplate.parse tmpl).substitutions = []) (ch : Chrono)
    (content : List TimelineItem) (itemT : ItemTemplate) (clock : RenderClock) :
    (PageTemplate.parse tmpl).render ch content itemT clock = tmpl.data := by
  show spliceGo _ _ 0 _ = _
  rw [h, spliceGo_empty, List.drop_zero]
  rfl

/-- Rendering an item template with an empty substitution list returns
the template text unchanged. -/
lemma itemRender_of_empty_substs {tmpl : String}
    (h : (ItemTemplate.parse tmpl).substitutions = []) (ch : Chrono)
    (it : TimelineItem) :
    (ItemTemplate.parse tmpl).render ch it = tmpl.data := by
  show spliceGo _ _ 0 _ = _
  rw [h, spliceGo_empty, List.drop_zero]
  rfl

/-- The page template that is exactly one `items` placeholder renders to
the concatenation of the item renderings, in slice order. -/
lemma pageItems_render (ch : Chrono) (content : List TimelineItem)
    (itemT : ItemTemplate) (clock : RenderClock) :
    (PageTemplate.parse "${items}").render ch content itemT clock =
      (content.map (fun it => itemT.render ch it)).flatten := by
  have hs : (PageTemplate.parse "${items}").substitutions =
      [{ start := 0, endPos := 8, specifier := PageFormatSpecifier.Items }] := by
    decide
  show spliceGo _ _ 0 _ = _
  rw [hs, spliceGo_single]
  have h1 : (((PageTemplate.parse "${items}").template.drop 0).take (0 - 0) :
      List Char) = [] := rfl
  have h2 : ((PageTemplate.parse "${items}").template.drop 8 : List Char) = [] :=
    rfl
  rw [h1, h2, List.nil_append, List.append_nil]
  rfl

/-- The page template that is exactly one `item_count` placeholder
renders to the html-encoded decimal count of the whole slice. -/
lemma pageItemCount_render (ch : Chrono) (content : List TimelineItem)
    (itemT : ItemTemplate) (clock : RenderClock) :
    (PageTemplate.parse "${item_count}").render ch content itemT clock =
      encode_safe (toString content.length).data := by
  have hs : (PageTemplate.parse "${item_count}").substitutions =
      [{ start := 0, endPos := 13, specifier := PageFormatSpecifier.ItemCount }] := by
    decide
  show spliceGo _ _ 0 _ = _
  rw [hs, spliceGo_single]
  have h1 : (((PageTemplate.parse "${item_count}").template.drop 0).take (0 - 0) :
      List Char) = [] := rfl
  have h2 : ((PageTemplate.parse "${item_count}").template.drop 13 : List Char) =
      [] := rfl
  rw [h1, h2, List.nil_append, List.append_nil]
  rfl

/-- The item template that is exactly one `title` placeholder renders to
the html-encoded title of the entry. -/
lemma itemTitle_render (ch : Chrono) (it : TimelineItem) :
    (ItemTemplate.parse "${title}").render ch it = encode_safe it.title.data := by
  have hs : (ItemTemplate.parse "${title}").substitutions =
      [{ start := 0, endPos := 8, specifier := ItemFormatSpecifier.Title }] := by
    decide
  show spliceGo _ _ 0 _ = _
  rw [hs, spliceGo_single]
  have h1 : (((ItemTemplate.parse "${title}").template.drop 0).take (0 - 0) :
      List Char) = [] := rfl
  have h2 : ((ItemTemplate.parse "${title}").template.drop 8 : List Char) = [] :=
    rfl
  rw [h1, h2, List.nil_append, List.append_nil]
  rfl

/- ===================== Claim theorems ===================== -/

/-- C1 (amended): PageTemplate.render substitutes for `items` the
concatenation of the item renderings of the slice in slice (insertion)
order; it performs no reordering by timestamp and no filtering. -/
theorem pageRender_items_in_insertion_order :
    ∀ (ch : Chrono) (content : List TimelineItem) (itemT : ItemTemplate)
      (clock : RenderClock),
      (PageTemplate.parse "${items}").render ch content itemT clock =
        (content.map (fun it => itemT.render ch it)).flatten :=
  fun ch content itemT clock => pageItems_render ch content itemT clock

/-- C1 counterexample: entries with timestamps 100, 50, 200 inserted in
that order and rendered at clock timestamp 300 come out in insertion
order 100, 50, 200, not in the claimed descending order 200, 100, 50. -/
theorem pageRender_items_not_sorted_cex :
    (PageTemplate.parse "${items}").render chNone [itTs 100, itTs 50, itTs 200]
        (ItemTemplate.parse "${timestamp};")
        { date := "2000-01-01", time := "00:05:00", timestamp := "300" } =
      "100;50;200;".data ∧
      "100;50;200;".data ≠ "200;100;50;".data := by
  decide

/-- C2 (amended): PageTemplate.render performs no future-filtering:
every entry of the slice, whatever its timestamp, contributes its
rendering to the `items` value, and `item_count` is the length of the
whole slice. The slice itself is taken immutably and is not changed. -/
theorem no_future_filtering :
    ∀ (ch : Chrono) (content : List TimelineItem) (itemT : ItemTemplate)
      (clock : RenderClock) (e : TimelineItem), e ∈ content →
      ((PageTemplate.parse "${item_count}").render ch content itemT clock =
          encode_safe (toString content.length).data) ∧
      ∃ pre post,
        (PageTemplate.parse "${items}").render ch content itemT clock =
          pre ++ itemT.render ch e ++ post := by
  intro ch content itemT clock e he
  refine ⟨pageItemCount_render ch content itemT clock, ?_⟩
  obtain ⟨l1, l2, rfl⟩ := List.append_of_mem he
  refine ⟨(l1.map (fun it => itemT.render ch it)).flatten,
    (l2.map (fun it => itemT.render ch it)).flatten, ?_⟩
  rw [pageItems_render]
  simp [List.map_append, List.flatten_append]

/-- Witness for C2 at a concrete future entry: timestamp 300 against a
render clock of 200, still rendered and still counted. -/
theorem no_future_filtering_witness :
    ((PageTemplate.parse "${item_count}").render chNone [itFuture]
        (ItemTemplate.parse "${timestamp}")
        { date := "2000-01-01", time := "00:03:20", timestamp := "200" } =
      encode_safe (toString ([itFuture] : List TimelineItem).length).data) ∧
      ∃ pre post,
        (PageTemplate.parse "${items}").render chNone [itFuture]
            (ItemTemplate.parse "${timestamp}")
            { date := "2000-01-01", time := "00:03:20", timestamp := "200" } =
          pre ++ (ItemTemplate.parse "${timestamp}").render chNone itFuture ++ post :=
  no_future_filtering chNone [itFuture] (ItemTemplate.parse "${timestamp}")
    { date := "2000-01-01", time := "00:03:20", timestamp := "200" } itFuture
    (List.mem_cons_self itFuture [])

/-- C2 counterexample: one stored entry with timestamp 300 and render
clock 200; the claim says item_count excludes it (0), the code counts
it (1). -/
theorem future_entry_still_counted_cex :
    itFuture.timestamp = 300 ∧
      (PageTemplate.parse "${item_count}").render chNone [itFuture]
          (ItemTemplate.parse "")
          { date := "2000-01-01", time := "00:03:20", timestamp := "200" } =
        "1".data ∧
      "1".data ≠ "0".data := by
  decide

/-- C3: for every compiled template (item or page) and every input, the
predicted output size, template length plus the sum over compiled
occurrences of encoded value length minus placeholder literal length,
equals the length of the rendered output, zero-occurrence templates
included. -/
theorem render_length_eq_predicted_size :
    (∀ (tmpl : String) (ch : Chrono) (it : TimelineItem),
        (((ItemTemplate.parse tmpl).render ch it).length : Int) =
          (ItemTemplate.parse tmpl).size ch it) ∧
      ∀ (tmpl : String) (ch : Chrono) (content : List TimelineItem)
        (itemT : ItemTemplate) (clock : RenderClock),
        (((PageTemplate.parse tmpl).render ch content itemT clock).length : Int) =
          (PageTemplate.parse tmpl).size ch content itemT clock := by
  constructor
  · intro tmpl ch it
    have hgen := renderSize_generic (ItemTemplate.parse tmpl).template
      (fun spec => encode_safe (TimelineItem.fieldValue ch it spec).data)
      ItemFormatSpecifier.name (ItemTemplate.parse tmpl).substitutions
      (itemParse_substOk tmpl) (itemParse_chain tmpl)
    show ((spliceGo _ _ 0 _).length : Int) = _
    rw [hgen]
    unfold ItemTemplate.size
    congr 1
    refine congrArg List.sum (List.map_congr_left ?_)
    intro s _
    simp only [encode_specifier_with_size]
    ring
  · intro tmpl ch content itemT clock
    have hgen := renderSize_generic (PageTemplate.parse tmpl).template
      (PageTemplate.fieldEncoded ch content itemT clock)
      PageFormatSpecifier.name (PageTemplate.parse tmpl).substitutions
      (pageParse_substOk tmpl) (pageParse_chain tmpl)
    show ((spliceGo _ _ 0 _).length : Int) = _
    rw [hgen]
    unfold PageTemplate.size
    congr 1
    refine congrArg List.sum (List.map_congr_left ?_)
    intro s _
    cases s.specifier
    case Items =>
      simp only [PageTemplate.fieldEncoded, PageTemplate.substSize,
        PageFormatSpecifier.name]
      have h5 : ((("items" : String).length : Nat) : Int) = 5 := by decide
      have h8 : ((("${items}" : String).length : Nat) : Int) = 8 := by decide
      rw [h5, h8]
      ring
    all_goals
      simp only [PageTemplate.fieldEncoded, PageTemplate.substSize,
        PageFormatSpecifier.name, encode_specifier_with_size]
    all_goals ring

/-- C4 counterexample: the template consisting of the escaped
placeholder renders with the backslash still present, not as the bare
placeholder text the claim requires. -/
theorem escaped_placeholder_keeps_backslash_cex :
    (ItemTemplate.parse "\\${title}").render chNone itPlain = "\\${title}".data ∧
      "\\${title}".data ≠ "${title}".data := by
  decide

/-- C4 (amended): an escaped occurrence is excluded from the compiled
list, so it is never substituted, but the backslash is not consumed: the
template text including the backslash is emitted verbatim. -/
theorem escaped_placeholder_not_substituted :
    ∀ (ch : Chrono) (it : TimelineItem),
      (ItemTemplate.parse "\\${title}").substitutions = [] ∧
        (ItemTemplate.parse "\\${title}").render ch it = "\\${title}".data := by
  intro ch it
  have hs : (ItemTemplate.parse "\\${title}").substitutions = [] := by decide
  exact ⟨hs, itemRender_of_empty_substs hs ch it⟩

/-- C5: the template made of two adjacent `title` placeholders contains
two live occurrences of the placeholder literal, yet the scanner records
only one entry, because the regex work-around for the escape check
consumes the character before the placeholder and `find_iter` yields
non-overlapping matches only. -/
theorem adjacent_occurrence_missed :
    litOf "title" <+: "${title}${title}".data ∧
      litOf "title" <+: "${title}${title}".data.drop 8 ∧
      (findFormatSpecifiers "${title}${title}".data "title").length = 1 := by
  decide

/-- C6 counterexample: a page template with no `items` occurrence but an
`item_count` occurrence is not returned unchanged: the other placeholder
is substituted as usual. -/
theorem no_items_not_returned_unchanged_cex :
    PageFormatSpecifier.Items ∉
        ((PageTemplate.parse "c=${item_count}").substitutions.map
          (fun s => s.specifier)) ∧
      (PageTemplate.parse "c=${item_count}").render chNone []
          (ItemTemplate.parse "") { date := "d", time := "t", timestamp := "s" } =
        "c=0".data ∧
      "c=0".data ≠ "c=${item_count}".data := by
  decide

/-- C6 (amended): PageTemplate.render has no special handling for a
missing `items` occurrence; the template text comes back unchanged
exactly when the compiled substitution list is empty. -/
theorem pageRender_unchanged_iff_no_substitutions :
    ∀ (tmpl : String) (ch : Chrono) (content : List TimelineItem)
      (itemT : ItemTemplate) (clock : RenderClock),
      (PageTemplate.parse tmpl).substitutions = [] →
      (PageTemplate.parse tmpl).render ch content itemT clock = tmpl.data :=
  fun _ ch content itemT clock h =>
    pageRender_of_empty_substs h ch content itemT clock

/-- Witness for C6 at a concrete placeholder-free template. -/
theorem pageRender_unchanged_iff_no_substitutions_witness :
    (PageTemplate.parse "plain text").render chNone [] (ItemTemplate.parse "")
        { date := "d", time := "t", timestamp := "s" } = "plain text".data :=
  pageRender_unchanged_iff_no_substitutions "plain text" chNone []
    (ItemTemplate.parse "") { date := "d", time := "t", timestamp := "s" }
    (by decide)

/-- C7: substituted field values are html-escaped, a title containing
script markup renders as its entity form, an ampersand becomes its
entity, and template text itself is never escaped. -/
theorem substituted_values_html_escaped :
    ∀ (ch : Chrono) (it : TimelineItem),
      (it.item.title = some "<script>" →
        (ItemTemplate.parse "${title}").render ch it = "&lt;script&gt;".data) ∧
      (it.item.title = some "fish & chips" →
        (ItemTemplate.parse "${title}").render ch it = "fish &amp; chips".data) ∧
      (ItemTemplate.parse "<b>&\"quoted\"</b>").render ch it =
        "<b>&\"quoted\"</b>".data := by
  intro ch it
  refine ⟨?_, ?_, ?_⟩
  · intro h
    rw [itemTitle_render]
    simp only [TimelineItem.title, h, Option.getD_some]
    decide
  · intro h
    rw [itemTitle_render]
    simp only [TimelineItem.title, h, Option.getD_some]
    decide
  · exact itemRender_of_empty_substs (by decide) ch it

/-- Witness for C7 at concrete entries. -/
theorem substituted_values_html_escaped_witness :
    (ItemTemplate.parse "${title}").render chNone itScript =
        "&lt;script&gt;".data ∧
      (ItemTemplate.parse "${title}").render chNone itAmp =
        "fish &amp; chips".data :=
  ⟨(substituted_values_html_escaped chNone itScript).1 rfl,
    (substituted_values_html_escaped chNone itAmp).2.1 rfl⟩

/-- C8 counterexample: an entry whose publish date is present but does
not parse renders the date as "(Invalid date)", not the empty string the
claim requires. -/
theorem unparseable_date_not_empty_cex :
    TimelineItem.date chNone itBadDate = "(Invalid date)" ∧
      ("(Invalid date)" : String) ≠ "" := by
  decide

/-- C8 (amended): the `date` and `time` values are the empty string when
the publish date is absent; when a publish date is present but cannot be
parsed they are the text "(Invalid date)". -/
theorem date_time_fallback_values :
    ∀ (ch : Chrono) (it : TimelineItem),
      (it.item.pub_date = none →
        TimelineItem.date ch it = "" ∧ TimelineItem.time ch it = "") ∧
      ∀ d, it.item.pub_date = some d → ch.parseRfc2822 d = none →
        TimelineItem.date ch it = "(Invalid date)" ∧
          TimelineItem.time ch it = "(Invalid date)" := by
  intro ch it
  constructor
  · intro h
    constructor
    · rw [TimelineItem.date, h]
      rfl
    · rw [TimelineItem.time, h]
      rfl
  · intro d hd hp
    constructor
    · simp only [TimelineItem.date, hd, Option.map_some', Option.getD_some,
        format_datetime, hp]
    · simp only [TimelineItem.time, hd, Option.map_some', Option.getD_some,
        format_datetime, hp]

/-- Witness for C8 at concrete entries and the always-failing parser. -/
theorem date_time_fallback_values_witness :
    (TimelineItem.date chNone itNoDate = "" ∧
        TimelineItem.time chNone itNoDate = "") ∧
      TimelineItem.date chNone itBadDate = "(Invalid date)" ∧
        TimelineItem.time chNone itBadDate = "(Invalid date)" :=
  ⟨(date_time_fallback_values chNone itNoDate).1 rfl,
    (date_time_fallback_values chNone itBadDate).2 "not a date" rfl rfl⟩

/-- C9: for every template string, the compiled substitution list of
both template kinds is ordered by ascending start offset, its intervals
are pairwise non-overlapping, and every interval is non-empty and lies
within the template bounds, so the splice loop slicing is in bounds. -/
theorem parse_substitutions_invariants :
    ∀ tmpl : String,
      (List.Pairwise leStart (ItemTemplate.parse tmpl).substitutions ∧
        List.Pairwise
          (fun a b : Substitution ItemFormatSpecifier => a.endPos ≤ b.start)
          (ItemTemplate.parse tmpl).substitutions ∧
        ∀ s ∈ (ItemTemplate.parse tmpl).substitutions,
          s.start < s.endPos ∧
            s.endPos ≤ (ItemTemplate.parse tmpl).template.length) ∧
      (List.Pairwise leStart (PageTemplate.parse tmpl).substitutions ∧
        List.Pairwise
          (fun a b : Substitution PageFormatSpecifier => a.endPos ≤ b.start)
          (PageTemplate.parse tmpl).substitutions ∧
        ∀ s ∈ (PageTemplate.parse tmpl).substitutions,
          s.start < s.endPos ∧
            s.endPos ≤ (PageTemplate.parse tmpl).template.length) := by
  intro tmpl
  refine ⟨⟨parseSubsts_sorted _ _ _, itemParse_chain tmpl, ?_⟩,
    parseSubsts_sorted _ _ _, pageParse_chain tmpl, ?_⟩
  · intro s hs
    exact recOk_bounds (itemParse_substOk tmpl s hs)
  · intro s hs
    exact recOk_bounds (pageParse_substOk tmpl s hs)

/-- Witness for C9 at a concrete parsed substitution. -/
theorem parse_substitutions_invariants_witness :
    (0 : Nat) < 8 ∧
      8 ≤ (ItemTemplate.parse "a${title}b${date}").template.length :=
  (parse_substitutions_invariants "a${title}b${date}").1.2.2
    { start := 0, endPos := 8, specifier := ItemFormatSpecifier.Title }
    (by decide)

/-- C10: a recognized placeholder whose dollar sign is immediately
preceded by a backslash is excluded from the scanner output even when
that backslash is itself preceded by another backslash: no recorded
occurrence starts at the placeholder position (or one before it). -/
theorem double_escaped_placeholder_still_excluded :
    ∀ (t : List Char) (name : String) (i : Nat),
      t[i]? = some '\\' → litOf name <+: t.drop (i + 1) →
      (findFormatSpecifiers t name).filter
        (fun q => decide (q.1 = i + 1 ∨ q.1 = i)) = [] := by
  intro t name i hbs hlit
  rw [List.filter_eq_nil_iff]
  intro q hq hdec
  rw [decide_eq_true_eq] at hdec
  obtain ⟨_, hcase⟩ := findFormatSpecifiers_sound hq
  rcases hcase with ⟨hpos, hnb, hat⟩ | ⟨h0, hat⟩ | ⟨h0, hnb, _⟩
  · rcases hdec with h1 | h1
    · apply hnb
      rw [h1, Nat.add_sub_cancel]
      exact hbs
    · have hd := litAt_dollar hat
      rw [h1] at hd
      rw [hd] at hbs
      exact absurd hbs (by decide)
  · rcases hdec with h1 | h1
    · omega
    · have hd := litAt_dollar hat
      have hi0 : i = 0 := by omega
      rw [hi0] at hbs
      rw [hd] at hbs
      exact absurd hbs (by decide)
  · rcases hdec with h1 | h1
    · omega
    · apply hnb
      have hi0 : i = 0 := by omega
      rw [← hi0]
      exact hbs

/-- Witness for C10 at the template of a double backslash before a title
placeholder. -/
theorem double_escaped_placeholder_still_excluded_witness :
    (findFormatSpecifiers "\\\\${title}".data "title").filter
        (fun q => decide (q.1 = 1 + 1 ∨ q.1 = 1)) = [] :=
  double_escaped_placeholder_still_excluded "\\\\${title}".data "title" 1
    (by decide) (by decide)

end Noos
